import Mathlib

/-!
Verification of the Free-Money discovery pipeline.

Strings are modelled as `List Char` (Python `str`).  Each definition below is a
shallow embedding of the corresponding Python function in
`app/services/scraper_core.py` or
`app/services/term_generator/dynamic_query_builder.py`; external effects
(search provider calls, page fetches, exceptions) are made explicit as outcome
parameters.
-/

/-- Python substring containment `needle in hay` (contiguous substring). -/
def isSubstring (needle : List Char) : List Char → Bool
  | [] => needle.isEmpty
  | c :: rest => needle.isPrefixOf (c :: rest) || isSubstring needle rest

/-- Helper used by `splitOnSchemeSep`: prepend a character to the first
segment of a split result. -/
def consHead (c : Char) : List (List Char) → List (List Char)
  | [] => [[c]]
  | s :: ss => (c :: s) :: ss

/-- Python `url.split("://")`: split on each non-overlapping leftmost
occurrence of the three-character separator. -/
def splitOnSchemeSep : List Char → List (List Char)
  | [] => [[]]
  | ':' :: '/' :: '/' :: rest => [] :: splitOnSchemeSep rest
  | c :: rest => consHead c (splitOnSchemeSep rest)

/-- `EXCLUDED_DOMAINS` from `scraper_core.py`. -/
def EXCLUDED_DOMAINS : List (List Char) :=
  List.map String.data
    ["google.com", "youtube.com", "facebook.com", "twitter.com",
     "linkedin.com", "instagram.com", "pinterest.com", "duckduckgo.com"]

/-- `FAILSAFE_URLS` from `scraper_core.py`. -/
def FAILSAFE_URLS : List (List Char) :=
  List.map String.data
    ["https://www.nerdwallet.com/best/credit-cards/sign-up-bonus",
     "https://www.forbes.com/advisor/banking/best-bank-bonuses-and-promotions/",
     "https://www.unclaimed.org/",
     "https://grants.gov"]

/-- `FinancialScraper._is_valid_link`.  Mirrors the Python line by line:
reject falsy or non-`"http"`-prefixed input; take `url.split("://")[1]`
(IndexError, i.e. no second part, yields False); take its part before the
first `/` as the domain; reject if any excluded domain is a substring
(case-sensitive, exactly as in the source). -/
def is_valid_link (url : List Char) : Bool :=
  if url.isEmpty || !(List.isPrefixOf "http".data url) then false
  else
    match splitOnSchemeSep url with
    | _ :: afterScheme :: _ =>
      let domain := (List.splitOn '/' afterScheme).headD []
      if EXCLUDED_DOMAINS.any (fun excluded => isSubstring excluded domain) then false
      else true
    | _ => false

/-- The authority (domain) component `_is_valid_link` works on:
`url.split("://")[1].split("/")[0]`, or `none` when the IndexError branch
would be taken. -/
def authorityOf (url : List Char) : Option (List Char) :=
  match splitOnSchemeSep url with
  | _ :: afterScheme :: _ => some ((List.splitOn '/' afterScheme).headD [])
  | _ => none

/-- `MockOpportunity` from `scraper_core.py`. -/
structure MockOpportunity where
  title : List Char
  trust_score : Int
  source_url : List Char
  summary : List Char
deriving DecidableEq

/-- `high_confidence_keywords` from `analyze_opportunity_with_ai`. -/
def high_confidence_keywords : List (List Char) :=
  List.map String.data
    ["bonus", "grant", "rebate", "scholarship", "claim", "settlement", "unclaimed"]

/-- `analyze_opportunity_with_ai` from `scraper_core.py`: keyword hit on the
lowercased text gives a score-7 opportunity; otherwise text longer than 500
characters gives a score-3 opportunity; otherwise `None`. -/
def analyze_opportunity_with_ai (text_content source_url : List Char) :
    Option MockOpportunity :=
  let text_lower := List.map Char.toLower text_content
  if high_confidence_keywords.any (fun keyword => isSubstring keyword text_lower) then
    some { title := "Potential Financial Opportunity Found".data
           trust_score := 7
           source_url := source_url
           summary := ("This page appears to contain information about a financial bonus, grant, or similar opportunity.").data }
  else if 500 < text_content.length then
    some { title := "Low-Confidence Opportunity".data
           trust_score := 3
           source_url := source_url
           summary := ("Page has substantial content but no specific financial keywords were detected.").data }
  else
    none

/-- One search result entry: `result.get('href')` may be absent. -/
def addValidLink (acc : List (List Char)) (href : Option (List Char)) :
    List (List Char) :=
  match href with
  | none => acc
  | some url => if is_valid_link url && !acc.contains url then acc ++ [url] else acc

/-- Outcome of one `ddgs.text(query, ...)` call inside `discover_seed_urls`:
either a result list (each entry carrying an optional href) or an exception. -/
inductive QueryResult where
  | ok (hrefs : List (Option (List Char)))
  | err
deriving DecidableEq

/-- The collection loop of `discover_seed_urls`.  Results of each query are
filtered through `_is_valid_link` and added to the set (modelled as a
duplicate-free list in insertion order).  The `try` block wraps the whole
loop, so an exception stops the remaining queries but keeps what was
collected. -/
def collectLinks : List QueryResult → List (List Char) → List (List Char)
  | [], acc => acc
  | QueryResult.ok hrefs :: rest, acc => collectLinks rest (hrefs.foldl addValidLink acc)
  | QueryResult.err :: _, acc => acc

/-- `FinancialScraper.discover_seed_urls`, parameterised by the per-query
outcomes: if no valid link was collected, return the failsafe list. -/
def discover_seed_urls (queryOutcomes : List QueryResult) : List (List Char) :=
  let all_links := collectLinks queryOutcomes []
  if all_links.isEmpty then FAILSAFE_URLS else all_links

/-- Outcome of processing one URL in `_fetch_and_analyze`: fetch returned
nothing, extraction returned nothing, an exception occurred, or clean text
was extracted. -/
inductive FetchOutcome where
  | fetchFail
  | extractFail
  | exn
  | content (text : List Char)
deriving DecidableEq

/-- `FinancialScraper._fetch_and_analyze`: every failure path returns `none`;
extracted text is passed to `analyze_opportunity_with_ai`. -/
def fetch_and_analyze (url : List Char) (outcome : FetchOutcome) :
    Option MockOpportunity :=
  match outcome with
  | FetchOutcome.fetchFail => none
  | FetchOutcome.extractFail => none
  | FetchOutcome.exn => none
  | FetchOutcome.content text => analyze_opportunity_with_ai text url

/-- `FinancialScraper.process_links_with_ai`: run `_fetch_and_analyze` for
every URL and keep the non-`None` results. -/
def process_links_with_ai (inputs : List (List Char × FetchOutcome)) :
    List MockOpportunity :=
  (inputs.map (fun p => fetch_and_analyze p.1 p.2)).filterMap id

/-- Count of inputs that fail in the sense of the spec sentence: fetch
returned nothing, extraction yielded nothing, or an exception occurred. -/
def countFetchFailures (inputs : List (List Char × FetchOutcome)) : Nat :=
  (inputs.filter (fun p =>
    match p.2 with
    | FetchOutcome.fetchFail => true
    | FetchOutcome.extractFail => true
    | FetchOutcome.exn => true
    | FetchOutcome.content _ => false)).length

/-- Count of inputs whose whole fetch-extract-classify chain yields `none`. -/
def countNoneResults (inputs : List (List Char × FetchOutcome)) : Nat :=
  (inputs.filter (fun p => (fetch_and_analyze p.1 p.2).isNone)).length

/-- Stable descending insertion for the Ranker: walk past strictly greater
scores, so an inserted element lands before later-inserted equals. -/
def insertDesc (o : MockOpportunity) : List MockOpportunity → List MockOpportunity
  | [] => [o]
  | x :: xs =>
    if o.trust_score < x.trust_score then x :: insertDesc o xs else o :: x :: xs

/-- Stable sort, descending by `trust_score`: the semantics of Python
`list.sort(key=lambda x: x.trust_score, reverse=True)` (Python guarantees a
stable sort, and for integer keys the stable descending order is unique). -/
def sortDescByScore : List MockOpportunity → List MockOpportunity
  | [] => []
  | x :: xs => insertDesc x (sortDescByScore xs)

/-- The Ranker fragment of `main` (lines 189-197): keep opportunities with
`trust_score >= 5`, then stable-sort descending by score.  (The source skips
the sort call when the filtered list is empty; sorting an empty list is the
empty list, so this is the same function.) -/
def rank_opportunities (opps : List MockOpportunity) : List MockOpportunity :=
  sortDescByScore (opps.filter (fun o => decide (5 ≤ o.trust_score)))

/-- The per-term filter of `DynamicQueryBuilder._fetch_related_for_query`
(lines 84-88): keep a term when it is truthy (non-empty), longer than 3
characters, its lowercased form is not an element of the working set, and it
contains neither the breadcrumb character nor the string `See more`. -/
def keepTerm (workingSet : List (List Char)) (term : List Char) : Bool :=
  !term.isEmpty && decide (3 < term.length)
    && !workingSet.contains (List.map Char.toLower term)
    && !(isSubstring "›".data term || isSubstring "See more".data term)

/-- Add elements to a Python-set-like duplicate-free list (`set.update`). -/
def setUpdate (s : List (List Char)) (new : List (List Char)) : List (List Char) :=
  new.foldl (fun acc t => if acc.contains t then acc else acc ++ [t]) s

/-- Outcome of one `_fetch_related_for_query` task: an exception / non-200
(contributing nothing) or a list of scraped candidate terms. -/
inductive ExpandOutcome where
  | err
  | ok (terms : List (List Char))
deriving DecidableEq

/-- Effect of one `_fetch_related_for_query` task on `self.expanded_queries`:
filter the scraped terms against the current set, then `update` the set. -/
def processSeedOutcome (workingSet : List (List Char)) :
    ExpandOutcome → List (List Char)
  | ExpandOutcome.err => workingSet
  | ExpandOutcome.ok terms => setUpdate workingSet (terms.filter (keepTerm workingSet))

/-- `DynamicQueryBuilder.expand_queries`, parameterised by the per-seed scrape
outcomes (one per seed, in the order the updates land): the set starts as
`set(initial_queries)` and each task only adds terms. -/
def expand_queries (initial_queries : List (List Char))
    (outcomes : List ExpandOutcome) : List (List Char) :=
  outcomes.foldl processSeedOutcome (setUpdate [] initial_queries)

/-! ## Helper lemmas -/

theorem splitOnSchemeSep_ne_nil (u : List Char) : splitOnSchemeSep u ≠ [] := by
  induction u using splitOnSchemeSep.induct with
  | case1 => simp [splitOnSchemeSep]
  | case2 rest ih => simp [splitOnSchemeSep]
  | case3 c rest h ih =>
    simp only [splitOnSchemeSep]
    unfold consHead
    split <;> simp

theorem substring_sep_iff (u : List Char) :
    isSubstring "://".data u = true ↔ 2 ≤ (splitOnSchemeSep u).length := by
  induction u using splitOnSchemeSep.induct with
  | case1 => simp [isSubstring, splitOnSchemeSep]
  | case2 rest ih =>
    have hne := splitOnSchemeSep_ne_nil rest
    cases hs : splitOnSchemeSep rest with
    | nil => exact absurd hs hne
    | cons s ss =>
      simp [isSubstring, splitOnSchemeSep, List.isPrefixOf, hs]
  | case3 c rest h ih =>
    have hpre : List.isPrefixOf "://".data (c :: rest) = false := by
      by_contra hc
      rw [Bool.not_eq_false] at hc
      have hx : "://".data <+: (c :: rest) := List.isPrefixOf_iff_prefix.mp hc
      obtain ⟨t, ht⟩ := hx
      have hd : "://".data = [':', '/', '/'] := rfl
      rw [hd] at ht
      simp only [List.cons_append, List.nil_append, List.cons.injEq] at ht
      exact h t ht.1.symm ht.2.symm
    have hne := splitOnSchemeSep_ne_nil rest
    cases hs : splitOnSchemeSep rest with
    | nil => exact absurd hs hne
    | cons s ss =>
      simp only [isSubstring, hpre, Bool.false_or, splitOnSchemeSep, hs, consHead,
        List.length_cons]
      rw [hs] at ih
      simpa using ih

theorem is_valid_link_eq (u : List Char) :
    is_valid_link u =
      if u.isEmpty || !(List.isPrefixOf "http".data u) then false
      else
        match authorityOf u with
        | some d => !(EXCLUDED_DOMAINS.any (fun e => isSubstring e d))
        | none => false := by
  unfold is_valid_link authorityOf
  split
  · rfl
  · cases hp : splitOnSchemeSep u with
    | nil => rfl
    | cons p0 ps =>
      cases ps with
      | nil => rfl
      | cons p1 rest =>
        simp only
        cases hany : EXCLUDED_DOMAINS.any
            (fun e => isSubstring e ((List.splitOn '/' p1).headD [])) <;> simp [hany]

theorem isPrefixOf_http_ne_nil (u : List Char)
    (h : List.isPrefixOf "http".data u = true) : u ≠ [] := by
  intro he
  subst he
  simp [List.isPrefixOf] at h

/-! ## Claim theorems -/

/-- C9: `_is_valid_link` is a pure function of its input string: two
evaluations on identical input yield identical output. -/
theorem is_valid_link_deterministic (u v : List Char) (h : u = v) :
    is_valid_link u = is_valid_link v := by
  rw [h]

/-- Witness for C9 at a concrete input. -/
theorem is_valid_link_deterministic_witness :
    is_valid_link "http://a.com".data = is_valid_link "http://a.com".data :=
  is_valid_link_deterministic "http://a.com".data "http://a.com".data rfl

/-- C1: if the collection loop of `discover_seed_urls` ends with no valid
link collected, the output is exactly `FAILSAFE_URLS`; if at least one link
was collected, the output is the collected set itself and the failsafe list
is not consulted. -/
theorem discoverer_failsafe_exactly (qrs : List QueryResult) :
    (collectLinks qrs [] = [] → discover_seed_urls qrs = FAILSAFE_URLS)
    ∧ (collectLinks qrs [] ≠ [] → discover_seed_urls qrs = collectLinks qrs []) := by
  constructor
  · intro h
    simp [discover_seed_urls, h]
  · intro h
    have hne : (collectLinks qrs []).isEmpty = false := by
      cases hc : collectLinks qrs [] with
      | nil => exact absurd hc h
      | cons a l => rfl
    simp [discover_seed_urls, hne]

/-- Witness for C1: a run where every query yields nothing falls back to the
failsafe list, and a run that collected one valid URL returns just it. -/
theorem discoverer_failsafe_exactly_witness :
    discover_seed_urls [QueryResult.ok [], QueryResult.ok [some "x".data]] = FAILSAFE_URLS
    ∧ discover_seed_urls [QueryResult.ok [some "http://x.com".data]]
        = ["http://x.com".data] := by
  constructor
  · exact (discoverer_failsafe_exactly _).1 (by decide)
  · rw [(discoverer_failsafe_exactly _).2 (by decide)]
    decide

/-- C6 counterexample: in `discover_seed_urls` the `try` block wraps the whole
query loop, so a provider exception on the second query stops the third query
from being issued: its valid URL never reaches the output, contradicting the
claim that all remaining queries are still issued. -/
theorem discoverer_error_aborts_remaining :
    discover_seed_urls
        [QueryResult.ok [some "http://alpha.example".data],
         QueryResult.err,
         QueryResult.ok [some "http://beta.example".data]]
      = ["http://alpha.example".data]
    ∧ is_valid_link "http://beta.example".data = true
    ∧ "http://beta.example".data ∉
        discover_seed_urls
          [QueryResult.ok [some "http://alpha.example".data],
           QueryResult.err,
           QueryResult.ok [some "http://beta.example".data]] := by
  decide

/-- C6 amended: a query with an empty result list is skipped and the loop
continues with the remaining queries; a provider exception during a query
keeps the URLs already collected but stops the remaining queries, and the
run itself still completes (through the failsafe logic of
`discover_seed_urls`). -/
theorem discoverer_per_query_recovery (pre rest : List QueryResult)
    (acc : List (List Char)) :
    collectLinks (QueryResult.ok [] :: rest) acc = collectLinks rest acc
    ∧ collectLinks (QueryResult.err :: rest) acc = acc
    ∧ collectLinks (pre ++ QueryResult.err :: rest) acc
        = collectLinks (pre ++ [QueryResult.err]) acc := by
  refine ⟨rfl, rfl, ?_⟩
  induction pre generalizing acc with
  | nil => rfl
  | cons q pre ih =>
    cases q with
    | ok hrefs => simpa [collectLinks] using ih (hrefs.foldl addValidLink acc)
    | err => rfl

set_option maxRecDepth 4000 in
/-- C2: the reference classifier returns a score-7 opportunity when any
configured keyword occurs case-insensitively in the text, otherwise a
score-3 opportunity when the text is longer than 500 characters, otherwise
nothing; in particular a text containing `bonus` scores 7, a 600-character
keyword-free text scores 3, and a 50-character keyword-free text gives
nothing. -/
theorem classifier_reference_policy (text url : List Char) :
    (high_confidence_keywords.any
        (fun k => isSubstring k (List.map Char.toLower text)) = true →
      (analyze_opportunity_with_ai text url).map MockOpportunity.trust_score = some 7)
    ∧ (high_confidence_keywords.any
          (fun k => isSubstring k (List.map Char.toLower text)) = false →
        500 < text.length →
        (analyze_opportunity_with_ai text url).map MockOpportunity.trust_score = some 3)
    ∧ (high_confidence_keywords.any
          (fun k => isSubstring k (List.map Char.toLower text)) = false →
        text.length ≤ 500 →
        analyze_opportunity_with_ai text url = none)
    ∧ (analyze_opportunity_with_ai "this text mentions a bonus somewhere".data url).map
        MockOpportunity.trust_score = some 7
    ∧ (analyze_opportunity_with_ai (List.replicate 600 'x') url).map
        MockOpportunity.trust_score = some 3
    ∧ analyze_opportunity_with_ai (List.replicate 50 'x') url = none := by
  have key : ∀ t u : List Char,
      high_confidence_keywords.any
        (fun k => isSubstring k (List.map Char.toLower t)) = true →
      (analyze_opportunity_with_ai t u).map MockOpportunity.trust_score = some 7 := by
    intro t u h
    simp only [analyze_opportunity_with_ai, h, if_true]
    rfl
  have mid : ∀ t u : List Char,
      high_confidence_keywords.any
        (fun k => isSubstring k (List.map Char.toLower t)) = false →
      500 < t.length →
      (analyze_opportunity_with_ai t u).map MockOpportunity.trust_score = some 3 := by
    intro t u h hlen
    simp only [analyze_opportunity_with_ai, h, Bool.false_eq_true, if_false,
      if_pos hlen]
    rfl
  have low : ∀ t u : List Char,
      high_confidence_keywords.any
        (fun k => isSubstring k (List.map Char.toLower t)) = false →
      t.length ≤ 500 →
      analyze_opportunity_with_ai t u = none := by
    intro t u h hlen
    simp only [analyze_opportunity_with_ai, h, Bool.false_eq_true, if_false,
      if_neg (Nat.not_lt.mpr hlen)]
  exact ⟨key text url, mid text url, low text url,
    key _ url (by decide),
    mid _ url (by decide) (by decide),
    low _ url (by decide) (by decide)⟩

set_option maxRecDepth 4000 in
/-- Witness for C2 at concrete inputs: keyword text scores 7, and a long
keyword-free text scores 3. -/
theorem classifier_reference_policy_witness :
    (analyze_opportunity_with_ai "big bonus".data "http://u".data).map
        MockOpportunity.trust_score = some 7
    ∧ (analyze_opportunity_with_ai (List.replicate 501 'y') "http://u".data).map
        MockOpportunity.trust_score = some 3 :=
  ⟨(classifier_reference_policy "big bonus".data "http://u".data).1 (by decide),
   (classifier_reference_policy (List.replicate 501 'y') "http://u".data).2.1
     (by decide) (by decide)⟩

set_option maxRecDepth 2000 in
/-- C5 counterexample: one candidate URL whose fetch and extraction both
succeed (so it is not a failure in the claim's sense) still contributes
nothing, because its 50-character keyword-free text is rejected by the
classifier; the pipeline then returns 0 non-none results instead of the
claimed N - failures = 1. -/
theorem pipeline_count_counterexample :
    countFetchFailures
        [("http://u".data, FetchOutcome.content (List.replicate 50 'x'))] = 0
    ∧ (process_links_with_ai
        [("http://u".data, FetchOutcome.content (List.replicate 50 'x'))]).length
        ≠ 1 - countFetchFailures
            [("http://u".data, FetchOutcome.content (List.replicate 50 'x'))] := by
  decide

/-- Helper for the pipeline count: keeping the non-`none` elements of a list
of options drops exactly the `none` elements. -/
theorem length_filterMap_id (xs : List (Option MockOpportunity)) :
    (xs.filterMap id).length = xs.length - (xs.filter Option.isNone).length := by
  induction xs with
  | nil => rfl
  | cons x rest ih =>
    have hle : (rest.filter Option.isNone).length ≤ rest.length :=
      List.length_filter_le _ _
    cases x with
    | none =>
      simp [List.filter_cons, ih]
    | some o =>
      simp [List.filter_cons, ih]
      omega

/-- C5 amended: every fetch failure, extraction failure or exception
contributes `none`; the pipeline never raises and returns exactly as many
non-none results as inputs whose whole fetch-extract-classify chain produced
an opportunity (N minus the none-producing inputs); and URLs are processed
independently, so one input's failure never affects another input's
contribution. -/
theorem pipeline_failure_isolation (inputs more : List (List Char × FetchOutcome))
    (url : List Char) :
    fetch_and_analyze url FetchOutcome.fetchFail = none
    ∧ fetch_and_analyze url FetchOutcome.extractFail = none
    ∧ fetch_and_analyze url FetchOutcome.exn = none
    ∧ (process_links_with_ai inputs).length = inputs.length - countNoneResults inputs
    ∧ countNoneResults inputs ≤ inputs.length
    ∧ process_links_with_ai (inputs ++ more)
        = process_links_with_ai inputs ++ process_links_with_ai more := by
  refine ⟨rfl, rfl, rfl, ?_, ?_, ?_⟩
  · have h := length_filterMap_id (inputs.map (fun p => fetch_and_analyze p.1 p.2))
    simp only [process_links_with_ai, countNoneResults]
    rw [h, List.length_map, List.filter_map, List.length_map]
    rfl
  · exact List.length_filter_le _ inputs
  · simp [process_links_with_ai]

/-- `setUpdate` never removes an element of the set. -/
theorem mem_setUpdate_of_mem (a : List Char) (new : List (List Char)) :
    ∀ s : List (List Char), a ∈ s → a ∈ setUpdate s new := by
  induction new with
  | nil => intro s h; exact h
  | cons t ts ih =>
    intro s h
    show a ∈ List.foldl _ (if s.contains t then s else s ++ [t]) ts
    by_cases hc : s.contains t = true
    · rw [if_pos hc]; exact ih s h
    · rw [if_neg hc]; exact ih (s ++ [t]) (List.mem_append_left _ h)

/-- Every added element ends up in the updated set. -/
theorem mem_setUpdate_of_mem_new (a : List Char) (new : List (List Char)) :
    ∀ s : List (List Char), a ∈ new → a ∈ setUpdate s new := by
  induction new with
  | nil => intro s h; exact absurd h (List.not_mem_nil a)
  | cons t ts ih =>
    intro s h
    show a ∈ List.foldl _ (if s.contains t then s else s ++ [t]) ts
    rcases List.mem_cons.mp h with rfl | hts
    · by_cases hc : s.contains a = true
      · rw [if_pos hc]
        exact mem_setUpdate_of_mem a ts s (List.elem_iff.mp hc)
      · rw [if_neg hc]
        exact mem_setUpdate_of_mem a ts (s ++ [a])
          (List.mem_append_right s (List.mem_singleton.mpr rfl))
    · by_cases hc : s.contains t = true
      · rw [if_pos hc]; exact ih s hts
      · rw [if_neg hc]; exact ih (s ++ [t]) hts

/-- One expansion task only adds terms to the working set. -/
theorem mem_processSeedOutcome_of_mem (a : List Char) (s : List (List Char))
    (o : ExpandOutcome) (h : a ∈ s) : a ∈ processSeedOutcome s o := by
  cases o with
  | err => exact h
  | ok terms => exact mem_setUpdate_of_mem a _ s h

/-- C8: the output of `expand_queries` contains every seed query, whatever
the per-seed scrape outcomes (including failures contributing nothing). -/
theorem expander_superset_of_seeds (seeds : List (List Char))
    (outs : List ExpandOutcome) (q : List Char) (hq : q ∈ seeds) :
    q ∈ expand_queries seeds outs := by
  have hstart : q ∈ setUpdate [] seeds := mem_setUpdate_of_mem_new q seeds [] hq
  show q ∈ List.foldl processSeedOutcome (setUpdate [] seeds) outs
  generalize setUpdate [] seeds = s at hstart ⊢
  induction outs generalizing s with
  | nil => exact hstart
  | cons o os ih =>
    exact ih (processSeedOutcome s o) (mem_processSeedOutcome_of_mem q s o hstart)

/-- Witness for C8: with one seed and one failed expansion the seed is still
in the output. -/
theorem expander_superset_of_seeds_witness :
    "grant offers".data ∈ expand_queries ["grant offers".data] [ExpandOutcome.err] :=
  expander_superset_of_seeds ["grant offers".data] [ExpandOutcome.err]
    "grant offers".data (by decide)

set_option maxRecDepth 2000 in
/-- C7 counterexample: the dedup check compares the lowercased candidate
against the original-case set, so the term `Abc5` is kept and added even
though it is case-insensitively (here even case-variantly) already present
as the set element `ABC5`; and a 200-character term passes the filter, so no
length-greater-than-about-100 junk rule exists in the code. -/
theorem term_filter_counterexample :
    keepTerm ["ABC5".data] "Abc5".data = true
    ∧ List.map Char.toLower "Abc5".data = List.map Char.toLower "ABC5".data
    ∧ processSeedOutcome ["ABC5".data] (ExpandOutcome.ok ["Abc5".data])
        = ["ABC5".data, "Abc5".data]
    ∧ keepTerm ["ABC5".data] (List.replicate 200 'a') = true := by
  decide

/-- C7 amended: a discovered term is discarded exactly when it is empty, has
length at most 3, its lowercased form is an exact element of the working set
(the set keeps original case, so this is not a full case-insensitive
comparison), or it contains the breadcrumb separator or the navigational
text `See more`; a kept term is added to the set unless already present
verbatim, and a discarded term is never added. -/
theorem term_filter_discard_iff (workingSet : List (List Char)) (t : List Char) :
    (keepTerm workingSet t = false ↔
      t = [] ∨ t.length ≤ 3
        ∨ workingSet.contains (List.map Char.toLower t) = true
        ∨ isSubstring "›".data t = true
        ∨ isSubstring "See more".data t = true)
    ∧ (keepTerm workingSet t = true →
        processSeedOutcome workingSet (ExpandOutcome.ok [t]) =
          if workingSet.contains t then workingSet else workingSet ++ [t])
    ∧ (keepTerm workingSet t = false →
        processSeedOutcome workingSet (ExpandOutcome.ok [t]) = workingSet) := by
  refine ⟨?_, ?_, ?_⟩
  · simp only [keepTerm, Bool.and_eq_false_iff, Bool.not_eq_false',
      Bool.not_eq_true', Bool.or_eq_false_iff, Bool.or_eq_true, List.isEmpty_iff,
      decide_eq_false_iff_not, Nat.not_lt]
    tauto
  · intro h
    simp [processSeedOutcome, setUpdate, List.filter_cons, h]
  · intro h
    simp [processSeedOutcome, setUpdate, List.filter_cons, h]

/-- Witness for C7 amended: a too-short term is discarded and the working
set is unchanged. -/
theorem term_filter_discard_iff_witness :
    processSeedOutcome ["seed query".data] (ExpandOutcome.ok ["ab".data])
      = ["seed query".data] :=
  (term_filter_discard_iff ["seed query".data] "ab".data).2.2 (by decide)

/-- `insertDesc` is a permutation-preserving insertion. -/
theorem insertDesc_perm (o : MockOpportunity) (l : List MockOpportunity) :
    (insertDesc o l).Perm (o :: l) := by
  induction l with
  | nil => exact List.Perm.refl _
  | cons x xs ih =>
    simp only [insertDesc]
    split
    · exact (ih.cons x).trans (List.Perm.swap o x xs)
    · exact List.Perm.refl _

/-- `insertDesc` preserves descending sortedness. -/
theorem insertDesc_pairwise (o : MockOpportunity) (l : List MockOpportunity)
    (h : l.Pairwise (fun a b => b.trust_score ≤ a.trust_score)) :
    (insertDesc o l).Pairwise (fun a b => b.trust_score ≤ a.trust_score) := by
  induction l with
  | nil => simp [insertDesc]
  | cons x xs ih =>
    rw [List.pairwise_cons] at h
    simp only [insertDesc]
    split
    · rename_i hlt
      rw [List.pairwise_cons]
      refine ⟨?_, ih h.2⟩
      intro b hb
      rcases List.mem_cons.mp ((insertDesc_perm o xs).mem_iff.mp hb) with rfl | hbxs
      · exact le_of_lt hlt
      · exact h.1 b hbxs
    · rename_i hge
      rw [List.pairwise_cons]
      refine ⟨?_, List.pairwise_cons.mpr h⟩
      intro b hb
      rcases List.mem_cons.mp hb with rfl | hbxs
      · exact le_of_not_lt hge
      · exact le_trans (h.1 b hbxs) (le_of_not_lt hge)

/-- Inserting never disturbs the relative order of any score class: the
elements walked past all have a strictly greater score. -/
theorem insertDesc_filter_score (s : Int) (o : MockOpportunity)
    (l : List MockOpportunity) :
    (insertDesc o l).filter (fun x => decide (x.trust_score = s)) =
      if o.trust_score = s
      then o :: l.filter (fun x => decide (x.trust_score = s))
      else l.filter (fun x => decide (x.trust_score = s)) := by
  induction l with
  | nil =>
    by_cases ho : o.trust_score = s <;> simp [insertDesc, ho]
  | cons x xs ih =>
    simp only [insertDesc]
    split
    · rename_i hlt
      simp only [List.filter_cons, ih]
      by_cases ho : o.trust_score = s
      · have hx : ¬ (x.trust_score = s) := by omega
        simp [ho, hx]
      · simp [ho]
    · by_cases ho : o.trust_score = s <;> simp [List.filter_cons, ho]

/-- `sortDescByScore` is a permutation. -/
theorem sortDescByScore_perm (l : List MockOpportunity) :
    (sortDescByScore l).Perm l := by
  induction l with
  | nil => exact List.Perm.refl _
  | cons x xs ih => exact (insertDesc_perm x (sortDescByScore xs)).trans (ih.cons x)

/-- `sortDescByScore` sorts descending by trust score. -/
theorem sortDescByScore_pairwise (l : List MockOpportunity) :
    (sortDescByScore l).Pairwise (fun a b => b.trust_score ≤ a.trust_score) := by
  induction l with
  | nil => simp [sortDescByScore]
  | cons x xs ih => exact insertDesc_pairwise x (sortDescByScore xs) ih

/-- `sortDescByScore` is stable: each score class keeps its input order. -/
theorem sortDescByScore_filter_score (s : Int) (l : List MockOpportunity) :
    (sortDescByScore l).filter (fun x => decide (x.trust_score = s)) =
      l.filter (fun x => decide (x.trust_score = s)) := by
  induction l with
  | nil => rfl
  | cons x xs ih =>
    simp only [sortDescByScore, insertDesc_filter_score, ih, List.filter_cons]
    by_cases hx : x.trust_score = s <;> simp [hx]

/-- C3: the Ranker keeps exactly the opportunities with trust score at least
5, sorts descending by score, is stable (every score class keeps its input
order), returns the empty sequence when nothing passes, and on input scores
3, 7, 5, 7 returns 7, 7, 5 with the two 7-scored entries in original
relative order. -/
theorem ranker_filters_and_stable_sorts (l : List MockOpportunity) :
    (rank_opportunities l).Perm (l.filter (fun o => decide (5 ≤ o.trust_score)))
    ∧ (rank_opportunities l).Pairwise (fun a b => b.trust_score ≤ a.trust_score)
    ∧ (∀ o ∈ rank_opportunities l, 5 ≤ o.trust_score)
    ∧ (∀ s : Int, (rank_opportunities l).filter (fun o => decide (o.trust_score = s))
        = (l.filter (fun o => decide (5 ≤ o.trust_score))).filter
            (fun o => decide (o.trust_score = s)))
    ∧ ((∀ o ∈ l, o.trust_score < 5) → rank_opportunities l = [])
    ∧ rank_opportunities
        [⟨"a".data, 3, "ua".data, []⟩, ⟨"b".data, 7, "ub".data, []⟩,
         ⟨"c".data, 5, "uc".data, []⟩, ⟨"d".data, 7, "ud".data, []⟩]
      = [⟨"b".data, 7, "ub".data, []⟩, ⟨"d".data, 7, "ud".data, []⟩,
         ⟨"c".data, 5, "uc".data, []⟩] := by
  refine ⟨sortDescByScore_perm _, sortDescByScore_pairwise _, ?_, ?_, ?_, by decide⟩
  · intro o ho
    have hmem : o ∈ l.filter (fun o => decide (5 ≤ o.trust_score)) :=
      (sortDescByScore_perm _).mem_iff.mp ho
    have := List.of_mem_filter hmem
    exact of_decide_eq_true this
  · intro s
    exact sortDescByScore_filter_score s _
  · intro h
    have hnil : l.filter (fun o => decide (5 ≤ o.trust_score)) = [] := by
      rw [List.filter_eq_nil_iff]
      intro o ho
      simp only [decide_eq_true_eq]
      exact not_le.mpr (h o ho)
    rw [rank_opportunities, hnil]
    rfl

/-- Witness for C3: when every input score is below 5 the Ranker returns the
empty list. -/
theorem ranker_filters_and_stable_sorts_witness :
    rank_opportunities [⟨"a".data, 3, "ua".data, []⟩] = [] :=
  (ranker_filters_and_stable_sorts [⟨"a".data, 3, "ua".data, []⟩]).2.2.2.2.1
    (by decide)

/-- C4 counterexample: the exclusion test in `_is_valid_link` is
case-sensitive, so `http://GOOGLE.com` is accepted even though its parsed
authority contains the exclusion entry `google.com` as a case-insensitive
substring, contradicting the claimed case-insensitive rejection. -/
theorem domain_filter_case_sensitivity_counterexample :
    is_valid_link "http://GOOGLE.com".data = true
    ∧ authorityOf "http://GOOGLE.com".data = some "GOOGLE.com".data
    ∧ EXCLUDED_DOMAINS.any
        (fun e => isSubstring e (List.map Char.toLower "GOOGLE.com".data)) = true := by
  decide

/-- C4 amended: `_is_valid_link` returns false when the input is empty, when
it does not start with the accepted scheme prefix `http`, when its authority
cannot be parsed (no `://`), or when its authority contains an
exclusion-list entry as a case-sensitive substring. -/
theorem domain_filter_rejections (u : List Char) :
    (u = [] → is_valid_link u = false)
    ∧ (List.isPrefixOf "http".data u = false → is_valid_link u = false)
    ∧ (authorityOf u = none → is_valid_link u = false)
    ∧ (∀ d, authorityOf u = some d →
        EXCLUDED_DOMAINS.any (fun e => isSubstring e d) = true →
        is_valid_link u = false) := by
  refine ⟨?_, ?_, ?_, ?_⟩
  · rintro rfl
    rfl
  · intro h
    rw [is_valid_link_eq, h]
    simp
  · intro h
    rw [is_valid_link_eq, h]
    split <;> rfl
  · intro d hd hany
    rw [is_valid_link_eq, hd]
    split
    · rfl
    · simp [hany]

/-- Witness for C4 amended: each rejection branch fires at a concrete URL. -/
theorem domain_filter_rejections_witness :
    is_valid_link [] = false
    ∧ is_valid_link "ftp://x.com".data = false
    ∧ is_valid_link "httpnosep".data = false
    ∧ is_valid_link "http://maps.google.com/q".data = false :=
  ⟨(domain_filter_rejections []).1 rfl,
   (domain_filter_rejections "ftp://x.com".data).2.1 (by decide),
   (domain_filter_rejections "httpnosep".data).2.2.1 (by decide),
   (domain_filter_rejections "http://maps.google.com/q".data).2.2.2
     "maps.google.com".data (by decide) (by decide)⟩

/-- C10: the scheme check is only a prefix test on `http`: any URL starting
with `http` whose authority parses and avoids the exclusion list is
accepted, even for schemes like `httpx`; and a non-empty `http`-prefixed
string with no `://` is rejected through the unparsable-authority branch. -/
theorem scheme_prefix_not_whitelist (u : List Char) :
    (List.isPrefixOf "http".data u = true →
      isSubstring "://".data u = true →
      (∀ d, authorityOf u = some d →
        EXCLUDED_DOMAINS.any (fun e => isSubstring e d) = false) →
      is_valid_link u = true)
    ∧ (u ≠ [] → List.isPrefixOf "http".data u = true →
        isSubstring "://".data u = false →
        is_valid_link u = false)
    ∧ is_valid_link "httpx://example.com".data = true := by
  refine ⟨?_, ?_, by decide⟩
  · intro hpre hsep hexcl
    have h2 : 2 ≤ (splitOnSchemeSep u).length := (substring_sep_iff u).mp hsep
    have hne : u ≠ [] := isPrefixOf_http_ne_nil u hpre
    have hemp : u.isEmpty = false := by
      cases u with
      | nil => exact absurd rfl hne
      | cons a l => rfl
    obtain ⟨p0, ps, hp⟩ : ∃ p0 ps, splitOnSchemeSep u = p0 :: ps := by
      cases hs : splitOnSchemeSep u with
      | nil => exact absurd hs (splitOnSchemeSep_ne_nil u)
      | cons a b => exact ⟨a, b, rfl⟩
    cases ps with
    | nil => rw [hp] at h2; simp at h2
    | cons p1 rest =>
      have hauth : authorityOf u = some ((List.splitOn '/' p1).headD []) := by
        unfold authorityOf
        rw [hp]
      have hcond : (u.isEmpty || !List.isPrefixOf "http".data u) = false := by
        rw [hemp, hpre]
        rfl
      rw [is_valid_link_eq, hauth, hcond]
      simp only [Bool.false_eq_true, if_false]
      rw [hexcl _ hauth]
      rfl
  · intro hne hpre hsep
    have hnotsub : ¬ (2 ≤ (splitOnSchemeSep u).length) := by
      intro hx
      have hs := (substring_sep_iff u).mpr hx
      rw [hsep] at hs
      exact Bool.false_ne_true hs
    have hauth : authorityOf u = none := by
      unfold authorityOf
      cases hs : splitOnSchemeSep u with
      | nil => rfl
      | cons p0 ps =>
        cases ps with
        | nil => rfl
        | cons p1 rest =>
          exfalso
          apply hnotsub
          rw [hs]
          simp only [List.length_cons]
          omega
    rw [is_valid_link_eq, hauth]
    split <;> rfl

/-- Witness for C10: the non-http scheme `httpx` passes, and an
`http`-prefixed string without `://` is rejected. -/
theorem scheme_prefix_not_whitelist_witness :
    is_valid_link "httpx://example.com".data = true
    ∧ is_valid_link "httpdata".data = false :=
  ⟨(scheme_prefix_not_whitelist "httpx://example.com".data).1 (by decide) (by decide)
     (by
       intro d hd
       have hd0 : authorityOf "httpx://example.com".data = some "example.com".data := by
         decide
       rw [hd0] at hd
       injection hd with h
       rw [← h]
       decide),
   (scheme_prefix_not_whitelist "httpdata".data).2.1 (by decide) (by decide) (by decide)⟩
